import Mathlib

/-!
# Verification of the fraud-dashboard data pipeline (`app.py`)

Shallow embedding of the transaction synthesizer (`generate_fraud_data`) and
the aggregation engine (module-level metrics, `daily_fraud`, the histogram
split and the `nlargest(10, 'risk_score')` table) of `app.py`.

Modelling conventions:
* Time is measured in (rational) days since an arbitrary epoch.  `datetime.now()`
  becomes an explicit parameter `now : ℚ`; `timedelta(days=30)` is the rational
  `30`.  The calendar date of a timestamp (`Series.dt.date`) is its floor in days.
* `pd.date_range(start, end, periods=n)` is an inclusive linspace.  For `n = 1`
  numpy's linspace returns `[start]`; in the formula below the step divisor is
  `0` in that case and Lean's `x / 0 = 0` convention yields `[start]` as well.
* The numpy global PRNG after `np.random.seed(42)` is modelled as a structure of
  abstract draw streams, one per distribution used by the code, consumed
  index-wise.  Seeding with the fixed constant means: every run uses the *same*
  streams, so two runs of the synthesizer correspond to two calls with the same
  `RNG` value (and possibly different `now`).  `RNG.Valid` records the
  documented output range of each numpy primitive
  (`lognormal` is strictly positive, `uniform(a, b)` and `random()` draw
  from the half-open interval `[a, b)` resp. `[0, 1)`,
  `randint(low, high)` draws from `[low, high)`).
* `ndarray.round(k)` / `Series.round(k)` round to `k` decimal places; they are
  modelled with Mathlib's integer `round` after scaling.  (numpy resolves exact
  ties to the even neighbour while `round` resolves them upward; no property
  proved below depends on the tie direction, only on round-to-nearest bounds
  and monotonicity.)
* Scalar float division in numpy does not raise on a zero denominator: `0 / 0`
  yields the sentinel NaN (with a `RuntimeWarning`), and `Series.mean()` of an
  empty series is NaN.  NaN-valued results are modelled as `Option.none`.
-/

/-- Round to 2 decimal places, as `ndarray.round(2)` on line 25 of `app.py`
and `Series.round(2)` on line 58. -/
def round2 (x : ℚ) : ℚ := (round (x * 100) : ℤ) / 100

/-- Round to 3 decimal places, as `ndarray.round(3)` on line 42 of `app.py`. -/
def round3 (x : ℚ) : ℚ := (round (x * 1000) : ℤ) / 1000

/-- One ledger row, the record shape built by the `pd.DataFrame` constructor of
`generate_fraud_data` (columns `transaction_id`, `date`, `amount`, `merchant`,
`country`, `user_id`, plus the derived `is_fraud` and `risk_score`). -/
structure Transaction where
  transaction_id : String
  date : ℚ
  amount : ℚ
  merchant : String
  country : String
  user_id : String
  is_fraud : Bool
  risk_score : ℚ
deriving DecidableEq, Repr

/-- Merchant vocabulary of line 26 of `app.py`. -/
def merchants : List String :=
  ["AMAZON", "GOOGLE", "APPLE", "NETFLIX", "UBER", "UNKNOWN", "PAYPAL"]

/-- Country vocabulary of line 27 of `app.py`. -/
def countries : List String := ["US", "UK", "DE", "FR", "IN", "BR"]

/-- The numpy global generator as fixed by `np.random.seed(42)` (line 19):
one abstract stream per distribution drawn from, consumed index-wise.  Fixing
the seed fixes the streams, so every run of the synthesizer sees the same
`RNG` value. -/
structure RNG where
  /-- `np.random.lognormal(mean=4, sigma=1.8, size=n)` draws (line 25). -/
  lognorm : ℕ → ℚ
  /-- `np.random.choice(merchants, n, p=...)` draws, as indices (line 26). -/
  merchIdx : ℕ → Fin 7
  /-- `np.random.choice(countries, n)` draws, as indices (line 27). -/
  ctryIdx : ℕ → Fin 6
  /-- `np.random.randint(1000, 9999)` draws (line 28). -/
  userRand : ℕ → ℕ
  /-- `np.random.random(n)` draws (line 37). -/
  unif01 : ℕ → ℚ
  /-- `np.random.uniform(0.7, 1.0, n)` draws (line 40). -/
  unifHi : ℕ → ℚ
  /-- `np.random.uniform(0.0, 0.6, n)` draws (line 41). -/
  unifLo : ℕ → ℚ

/-- Documented output ranges of the numpy primitives: `lognormal` is `exp` of a
normal and hence strictly positive; `random()` draws from `[0, 1)`;
`uniform(a, b)` draws from `[a, b)`; `randint(low, high)` from `[low, high)`. -/
structure RNG.Valid (rng : RNG) : Prop where
  lognorm_pos : ∀ i, 0 < rng.lognorm i
  userRand_mem : ∀ i, 1000 ≤ rng.userRand i ∧ rng.userRand i < 9999
  unif01_mem : ∀ i, 0 ≤ rng.unif01 i ∧ rng.unif01 i < 1
  unifHi_mem : ∀ i, 7/10 ≤ rng.unifHi i ∧ rng.unifHi i < 1
  unifLo_mem : ∀ i, 0 ≤ rng.unifLo i ∧ rng.unifLo i < 6/10

/-- `f"TX{i:08d}"` (line 23): `i` zero-padded to (at least) eight digits. -/
def tx_id (i : ℕ) : String :=
  let s := toString i
  "TX" ++ String.mk (List.replicate (8 - s.length) '0') ++ s

/-- `pd.date_range(start, end, periods=n)` (line 20): `n` points evenly spaced
over the closed interval `[s, e]`, i.e. an inclusive linspace.  For `n = 1` the
divisor is `0` and `x / 0 = 0` gives `[s]`, matching `np.linspace` with one
point. -/
def date_range (s e : ℚ) (n : ℕ) : List ℚ :=
  (List.range n).map (fun (i : ℕ) => s + (i : ℚ) * ((e - s) / ((n : ℚ) - 1)))

/-- The fraud-eligibility mask of lines 31–35:
`(amount > 10000) | (merchant == "UNKNOWN") |
 (amount.between(5000, 10000) & country.isin(["IN", "BR"]))`
(`Series.between` is inclusive on both ends). -/
def fraud_conditions (amount : ℚ) (merchant country : String) : Bool :=
  decide (10000 < amount) || (merchant == "UNKNOWN") ||
    (decide (5000 ≤ amount) && decide (amount ≤ 10000) &&
      (country == "IN" || country == "BR"))

/-- Row `i` of the synthesized frame: the per-index semantics of the vectorized
column constructions of lines 20–42 of `app.py`. -/
def mkTransaction (rng : RNG) (now : ℚ) (n i : ℕ) : Transaction :=
  let amount := round2 (rng.lognorm i)
  let merchant := merchants.get (Fin.cast (by decide) (rng.merchIdx i))
  let country := countries.get (Fin.cast (by decide) (rng.ctryIdx i))
  let is_fraud := fraud_conditions amount merchant country &&
    decide (3/10 < rng.unif01 i)
  { transaction_id := tx_id i
    date := now - 30 + i * ((now - (now - 30)) / ((n : ℚ) - 1))
    amount := amount
    merchant := merchant
    country := country
    user_id := "USER" ++ toString (rng.userRand i)
    is_fraud := is_fraud
    risk_score := round3 (if is_fraud then rng.unifHi i else rng.unifLo i) }

/-- The body of `generate_fraud_data` for a non-negative count: the ledger of
`n` rows (rows are fully determined by their index; `np.where` on line 38
evaluates both `uniform` argument arrays, modelled by the two streams
`unifHi` / `unifLo`). -/
def generate_fraud_dataAux (rng : RNG) (now : ℚ) (n : ℕ) : List Transaction :=
  (List.range n).map (mkTransaction rng now n)

/-- The error raised by `pd.date_range` when `periods` is negative. -/
def periodsError : String := "ValueError: periods must be a non-negative integer"

/-- `generate_fraud_data(n)` as a Python callable on an arbitrary integer `n`:
the function body performs no validation of `n`; for negative `n` the first
size-dependent call, `pd.date_range(..., periods=n)`, raises `ValueError`
(periods must be non-negative), and for `n ≥ 0` the ledger is produced. -/
def generate_fraud_data (rng : RNG) (now : ℚ) (n : ℤ) :
    Except String (List Transaction) :=
  if n < 0 then
    Except.error periodsError
  else
    Except.ok (generate_fraud_dataAux rng now n.toNat)

/-! ## Aggregation engine (lines 50–58, 65–66, 79, 86–92) -/

/-- `df["amount"].sum()` (line 50). -/
def total_amount (l : List Transaction) : ℚ := (l.map Transaction.amount).sum

/-- `len(df)` (line 51). -/
def total_transactions (l : List Transaction) : ℕ := l.length

/-- `df["is_fraud"].sum()` (line 52). -/
def fraud_transactions (l : List Transaction) : ℕ :=
  l.countP (fun r => r.is_fraud)

/-- `df[df["is_fraud"]]["amount"].sum()` (line 53). -/
def fraud_amount (l : List Transaction) : ℚ :=
  ((l.filter (fun r => r.is_fraud)).map Transaction.amount).sum

/-- `fraud_transactions / total_transactions * 100` (line 54).  numpy scalar
division does not raise on a zero denominator: on an empty ledger `0 / 0`
produces the NaN sentinel, modelled as `none`. -/
def fraud_rate (l : List Transaction) : Option ℚ :=
  if total_transactions l = 0 then none
  else some ((fraud_transactions l : ℚ) / (total_transactions l : ℚ) * 100)

/-- `df['amount'].mean()` (line 79).  `Series.mean()` of an empty series is the
NaN sentinel, modelled as `none`. -/
def amount_mean (l : List Transaction) : Option ℚ :=
  if l.length = 0 then none
  else some ((l.map Transaction.amount).sum / (l.length : ℚ))

/-- Calendar date of a row, `df["date"].dt.date` (line 57): with time in days
since the epoch, the date component is the floor. -/
def calDate (r : Transaction) : ℤ := ⌊r.date⌋

/-- One row of the `daily_fraud` frame (lines 57–58): a calendar date with its
transaction count (`transaction_id: "count"`), fraud count (`is_fraud: "sum"`)
and the derived fraud-rate percentage. -/
structure DailyRow where
  date : ℤ
  tx_count : ℕ
  fraud_count : ℕ
  fraud_rate : ℚ
deriving DecidableEq, Repr

/-- The distinct calendar dates of the ledger in ascending order: the group
keys of `df.groupby(df["date"].dt.date)` (pandas sorts group keys ascending by
default). -/
def daily_keys (l : List Transaction) : List ℤ :=
  ((l.map calDate).dedup).mergeSort (fun a b => a ≤ b)

/-- Lines 57–58: group by calendar date, count rows and sum `is_fraud` per
group, then `fraud_rate = (is_fraud / transaction_id * 100).round(2)`. -/
def daily_fraud (l : List Transaction) : List DailyRow :=
  (daily_keys l).map (fun d =>
    let g := l.filter (fun r => calDate r = d)
    { date := d
      tx_count := g.length
      fraud_count := g.countP (fun r => r.is_fraud)
      fraud_rate := round2 ((g.countP (fun r => r.is_fraud) : ℚ) /
        (g.length : ℚ) * 100) })

/-- `df[~df["is_fraud"]]["amount"]` (line 65): amounts of the legitimate rows. -/
def legit_amounts (l : List Transaction) : List ℚ :=
  (l.filter (fun r => !r.is_fraud)).map Transaction.amount

/-- `df[df["is_fraud"]]["amount"]` (line 66): amounts of the fraudulent rows. -/
def fraudulent_amounts (l : List Transaction) : List ℚ :=
  (l.filter (fun r => r.is_fraud)).map Transaction.amount

/-- The comparison realising `Series.nlargest(10, 'risk_score')` on the
index-decorated ledger: higher `risk_score` first, ties broken by smaller
original position (pandas `keep='first'`). -/
def riskLE (x y : ℕ × Transaction) : Bool :=
  decide (y.2.risk_score < x.2.risk_score ∨
    (x.2.risk_score = y.2.risk_score ∧ x.1 ≤ y.1))

/-- `df.nlargest(10, 'risk_score')` (line 88) on the index-decorated ledger:
stable descending sort by `risk_score`, first ten rows kept. -/
def nlargest10Enum (l : List Transaction) : List (ℕ × Transaction) :=
  (l.enum.mergeSort riskLE).take 10

/-- `df.nlargest(10, 'risk_score')` (line 88): the ten highest-risk rows,
ties broken by original ledger order. -/
def nlargest10 (l : List Transaction) : List Transaction :=
  (nlargest10Enum l).map Prod.snd

/-- The column set of the "Recent High-Risk Transactions" `DataTable`
(line 87 of `app.py`). -/
def recent_table_columns : List String :=
  ["date", "transaction_id", "amount", "merchant", "risk_score", "is_fraud"]

/-- A displayed row of the high-risk table: the projection of a ledger row to
the fields named in `recent_table_columns`. -/
structure HighRiskRow where
  date : ℚ
  transaction_id : String
  amount : ℚ
  merchant : String
  risk_score : ℚ
  is_fraud : Bool
deriving DecidableEq, Repr

/-- Projection of a ledger row to the displayed columns of line 87. -/
def toHighRiskRow (r : Transaction) : HighRiskRow :=
  { date := r.date, transaction_id := r.transaction_id, amount := r.amount
    merchant := r.merchant, risk_score := r.risk_score, is_fraud := r.is_fraud }

/-- The rendered high-risk table (lines 86–92): the top-ten rows projected to
the declared column set. -/
def recent_high_risk_table (l : List Transaction) : List HighRiskRow :=
  (nlargest10 l).map toHighRiskRow

/-! ## Concrete RNG instantiations used by witnesses and counterexamples -/

/-- A concrete valid draw record: constant streams within each primitive's
documented range. -/
def rng0 : RNG :=
  { lognorm := fun _ => 100
    merchIdx := fun _ => 0
    ctryIdx := fun _ => 0
    userRand := fun _ => 1000
    unif01 := fun _ => 1/2
    unifHi := fun _ => 3/4
    unifLo := fun _ => 1/2 }

/-- A concrete valid draw record whose Bernoulli stream fails (`random() ≤ 0.3`)
while every amount is large enough to be fraud-eligible. -/
def rng1 : RNG :=
  { lognorm := fun _ => 20000
    merchIdx := fun _ => 0
    ctryIdx := fun _ => 0
    userRand := fun _ => 1000
    unif01 := fun _ => 1/5
    unifHi := fun _ => 3/4
    unifLo := fun _ => 1/2 }

/-- The non-`date` fields of a row, used to compare two runs of the
synthesizer field by field. -/
def nonDateFields (r : Transaction) :
    String × ℚ × String × String × String × Bool × ℚ :=
  (r.transaction_id, r.amount, r.merchant, r.country, r.user_id,
    r.is_fraud, r.risk_score)

/-- The fraud-eligibility rule in the words of the claim (spec §4.1 step 6),
stated propositionally over a row's fields, to be compared with the code's
`fraud_conditions` mask. -/
def FraudEligibleSpec (r : Transaction) : Prop :=
  10000 < r.amount ∨ r.merchant = "UNKNOWN" ∨
    (5000 ≤ r.amount ∧ r.amount ≤ 10000 ∧ (r.country = "IN" ∨ r.country = "BR"))

/-! ## General lemmas -/

theorem rng0_valid : rng0.Valid := by
  constructor <;> intro i <;> simp [rng0] <;> norm_num

theorem rng1_valid : rng1.Valid := by
  constructor <;> intro i <;> simp [rng1] <;> norm_num

@[simp] theorem length_generate_fraud_dataAux (rng : RNG) (now : ℚ) (n : ℕ) :
    (generate_fraud_dataAux rng now n).length = n := by
  simp [generate_fraud_dataAux]

theorem get_generate_fraud_dataAux (rng : RNG) (now : ℚ) (n i : ℕ)
    (hl : i < (generate_fraud_dataAux rng now n).length) :
    (generate_fraud_dataAux rng now n).get ⟨i, hl⟩ = mkTransaction rng now n i := by
  rw [List.get_eq_getElem]
  simp [generate_fraud_dataAux]

theorem round_mono_rat {x y : ℚ} (h : x ≤ y) : round x ≤ round y := by
  rw [round_eq, round_eq]
  exact Int.floor_le_floor (by linarith)

theorem intCast_le_round {k : ℤ} {x : ℚ} (h : (k : ℚ) ≤ x) : k ≤ round x := by
  have h2 := round_mono_rat h
  rwa [round_intCast] at h2

theorem round_le_intCast {k : ℤ} {x : ℚ} (h : x ≤ (k : ℚ)) : round x ≤ k := by
  have h2 := round_mono_rat h
  rwa [round_intCast] at h2

theorem le_round3 (k : ℤ) {x : ℚ} (h : (k : ℚ) ≤ x * 1000) :
    (k : ℚ) / 1000 ≤ round3 x := by
  rw [round3]
  have h2 : k ≤ round (x * 1000) := intCast_le_round h
  have h3 : (k : ℚ) ≤ ((round (x * 1000) : ℤ) : ℚ) := by exact_mod_cast h2
  linarith

theorem round3_le (k : ℤ) {x : ℚ} (h : x * 1000 ≤ (k : ℚ)) :
    round3 x ≤ (k : ℚ) / 1000 := by
  rw [round3]
  have h2 : round (x * 1000) ≤ k := round_le_intCast h
  have h3 : ((round (x * 1000) : ℤ) : ℚ) ≤ (k : ℚ) := by exact_mod_cast h2
  linarith

theorem round2_nonneg {x : ℚ} (h : 0 ≤ x) : 0 ≤ round2 x := by
  rw [round2]
  have h2 : (0 : ℤ) ≤ round (x * 100) := intCast_le_round (by push_cast; linarith)
  have h3 : ((0 : ℤ) : ℚ) ≤ ((round (x * 100) : ℤ) : ℚ) := by exact_mod_cast h2
  have h4 : (0 : ℚ) ≤ ((round (x * 100) : ℤ) : ℚ) := by simpa using h3
  positivity

theorem fraud_conditions_iff (a : ℚ) (m c : String) :
    fraud_conditions a m c = true ↔
      (10000 < a ∨ m = "UNKNOWN" ∨
        (5000 ≤ a ∧ a ≤ 10000 ∧ (c = "IN" ∨ c = "BR"))) := by
  simp [fraud_conditions]
  tauto

/-! ## Claims -/

/-- Claim C1, counterexample: the claim asserts that two independent runs with
the same seed and `N` are byte-identical including the timestamp field; but the
timestamp range is anchored at `datetime.now()`, so two runs at different
wall-clock instants (here `now = 0` and `now = 1`) produce different ledgers. -/
theorem C1_counterexample :
    generate_fraud_dataAux rng0 0 2 ≠ generate_fraud_dataAux rng0 1 2 := by
  intro h
  have h0 := congrArg (fun l => l.map Transaction.date) h
  simp only [generate_fraud_dataAux, List.map_map, List.range_succ,
    List.map_append, List.map_cons, List.map_nil, Function.comp,
    mkTransaction] at h0
  have h1 := List.head_eq_of_cons_eq (List.append_inj_left h0 (by simp))
  norm_num at h1

/-- Claim C1 (amended): for fixed `N` and the fixed seed, two runs agree on
every field except `timestamp`; the `timestamp` column is anchored at the
run's wall-clock `now`, so runs at different instants differ in the
`timestamp` field of every record. -/
theorem C1_determinism_amended (rng : RNG) (now₁ now₂ : ℚ) (n : ℕ) :
    (generate_fraud_dataAux rng now₁ n).map nonDateFields =
      (generate_fraud_dataAux rng now₂ n).map nonDateFields ∧
    (now₁ ≠ now₂ → ∀ i, i < n →
      ((generate_fraud_dataAux rng now₁ n).map Transaction.date)[i]? ≠
        ((generate_fraud_dataAux rng now₂ n).map Transaction.date)[i]?) := by
  constructor
  · simp only [generate_fraud_dataAux, List.map_map]
    exact List.map_congr_left (fun a _ => rfl)
  · intro hne i hi h
    have hval : ∀ now : ℚ,
        ((generate_fraud_dataAux rng now n).map Transaction.date)[i]? =
          some (now - 30 + (i : ℚ) * ((now - (now - 30)) / ((n : ℚ) - 1))) := by
      intro now
      rw [generate_fraud_dataAux, List.map_map, List.getElem?_map,
        List.getElem?_range hi]
      rfl
    rw [hval now₁, hval now₂, Option.some.injEq] at h
    have e1 : now₁ - (now₁ - 30) = (30 : ℚ) := by ring
    have e2 : now₂ - (now₂ - 30) = (30 : ℚ) := by ring
    rw [e1, e2] at h
    exact hne (by linarith)

/-- Witness for C1 (amended) at `rng0`, `now₁ = 0`, `now₂ = 1`, `n = 2`. -/
theorem C1_determinism_amended_witness :
    (generate_fraud_dataAux rng0 0 2).map nonDateFields =
      (generate_fraud_dataAux rng0 1 2).map nonDateFields ∧
    ((generate_fraud_dataAux rng0 0 2).map Transaction.date)[0]? ≠
      ((generate_fraud_dataAux rng0 1 2).map Transaction.date)[0]? :=
  ⟨(C1_determinism_amended rng0 0 1 2).1,
    (C1_determinism_amended rng0 0 1 2).2 (by norm_num) 0 (by norm_num)⟩

/-- Claim C2: a row's `is_fraud` holds iff the fraud-eligibility rule holds for
the row and the independent draw `random()` exceeds `0.3` (a Bernoulli success
of probability `0.7`); hence an ineligible row is never labelled fraudulent,
while an eligible-but-unflagged row exists (exhibited at `rng1`, whose
Bernoulli stream fails while every amount is eligible). -/
theorem C2_label_rule (rng : RNG) (now : ℚ) (n i : ℕ)
    (hl : i < (generate_fraud_dataAux rng now n).length) :
    (((generate_fraud_dataAux rng now n).get ⟨i, hl⟩).is_fraud = true ↔
      (FraudEligibleSpec ((generate_fraud_dataAux rng now n).get ⟨i, hl⟩) ∧
        3/10 < rng.unif01 i)) ∧
    (¬ FraudEligibleSpec ((generate_fraud_dataAux rng now n).get ⟨i, hl⟩) →
      ((generate_fraud_dataAux rng now n).get ⟨i, hl⟩).is_fraud = false) ∧
    (∃ r ∈ generate_fraud_dataAux rng1 0 1,
      FraudEligibleSpec r ∧ r.is_fraud = false) := by
  rw [get_generate_fraud_dataAux]
  have hiff : FraudEligibleSpec (mkTransaction rng now n i) ↔
      fraud_conditions (round2 (rng.lognorm i))
        (merchants.get (Fin.cast (by decide) (rng.merchIdx i)))
        (countries.get (Fin.cast (by decide) (rng.ctryIdx i))) = true := by
    rw [fraud_conditions_iff]
    simp [FraudEligibleSpec, mkTransaction]
  refine ⟨?_, ?_, ?_⟩
  · rw [hiff]
    simp [mkTransaction]
  · rw [hiff]
    intro hne
    simp only [mkTransaction, Bool.and_eq_false_iff]
    left
    exact Bool.not_eq_true _ ▸ (by simpa using hne)
  · refine ⟨mkTransaction rng1 0 1 0, by simp [generate_fraud_dataAux], ?_, ?_⟩
    · simp [FraudEligibleSpec, mkTransaction, rng1, round2, round_eq]
      norm_num
    · simp [mkTransaction, rng1]
      norm_num

/-- Witness for C2 at `rng0`, `now = 0`, `n = 1`, `i = 0`. -/
theorem C2_label_rule_witness :
    (((generate_fraud_dataAux rng0 0 1).get ⟨0, by simp⟩).is_fraud = true ↔
      (FraudEligibleSpec ((generate_fraud_dataAux rng0 0 1).get ⟨0, by simp⟩) ∧
        3/10 < rng0.unif01 0)) ∧
    (¬ FraudEligibleSpec ((generate_fraud_dataAux rng0 0 1).get ⟨0, by simp⟩) →
      ((generate_fraud_dataAux rng0 0 1).get ⟨0, by simp⟩).is_fraud = false) ∧
    (∃ r ∈ generate_fraud_dataAux rng1 0 1,
      FraudEligibleSpec r ∧ r.is_fraud = false) :=
  C2_label_rule rng0 0 1 0 (by simp)

/-- Claim C4, counterexample: the claim asserts every `N ≤ 0` is rejected
before generation, but `generate_fraud_data` performs no validation: at
`N = 0` it succeeds and returns an empty ledger instead of an error. -/
theorem C4_counterexample : generate_fraud_data rng0 0 0 = Except.ok [] := rfl

/-- Claim C4 (amended): for `N ≤ 0` there is no configuration check; a
negative `N` fails only because the underlying date-range routine raises
`ValueError`, while `N = 0` is accepted and yields an empty ledger. -/
theorem C4_rejection_amended (rng : RNG) (now : ℚ) (n : ℤ) (hn : n ≤ 0) :
    generate_fraud_data rng now n =
      if n < 0 then Except.error periodsError else Except.ok [] := by
  by_cases h : n < 0
  · simp [generate_fraud_data, h]
  · have h0 : n = 0 := le_antisymm hn (not_lt.mp h)
    subst h0
    simp [generate_fraud_data, generate_fraud_dataAux]

/-- Witness for C4 (amended) at `n = -1`. -/
theorem C4_rejection_amended_witness :
    (-1 : ℤ) ≤ 0 ∧
    generate_fraud_data rng0 0 (-1) =
      if (-1 : ℤ) < 0 then Except.error periodsError else Except.ok [] :=
  ⟨by norm_num, C4_rejection_amended rng0 0 (-1) (by norm_num)⟩

/-- Claim C5: on an empty ledger the fraud rate and the mean amount are the
NaN sentinel of numpy scalar division / pandas `mean` (modelled `none`);
no arithmetic fault is raised or propagated. -/
theorem C5_empty_ledger_policy : fraud_rate [] = none ∧ amount_mean [] = none :=
  ⟨rfl, rfl⟩

/-- Claim C9: the legitimate-amount and fraudulent-amount collections exactly
partition the ledger's amounts — together they are a permutation of the amount
column, and their sizes sum to the ledger size. -/
theorem C9_histogram_partition (l : List Transaction) :
    (legit_amounts l ++ fraudulent_amounts l).Perm (l.map Transaction.amount) ∧
    (legit_amounts l).length + (fraudulent_amounts l).length = l.length := by
  have hp := List.filter_append_perm (fun r => !r.is_fraud) l
  simp only [Bool.not_not] at hp
  have hmap := hp.map Transaction.amount
  rw [List.map_append] at hmap
  refine ⟨hmap, ?_⟩
  have hlen := hmap.length_eq
  simpa [legit_amounts, fraudulent_amounts] using hlen

/-- Claim C3: in every generated ledger, amounts are non-negative, risk scores
lie in `[0, 1]` with none in the open gap `(0.6, 0.7)`, fraudulent rows score
at least `0.7` and non-fraudulent rows at most `0.6` (after the roundings to
2 resp. 3 decimal places). -/
theorem C3_range_invariants (rng : RNG) (hv : rng.Valid) (now : ℚ) (n : ℕ) :
    ∀ r ∈ generate_fraud_dataAux rng now n,
      0 ≤ r.amount ∧ 0 ≤ r.risk_score ∧ r.risk_score ≤ 1 ∧
      ¬(6/10 < r.risk_score ∧ r.risk_score < 7/10) ∧
      (r.is_fraud = true → 7/10 ≤ r.risk_score) ∧
      (r.is_fraud = false → r.risk_score ≤ 6/10) := by
  intro r hr
  simp only [generate_fraud_dataAux, List.mem_map, List.mem_range] at hr
  obtain ⟨i, hi, rfl⟩ := hr
  have hamt : (mkTransaction rng now n i).amount = round2 (rng.lognorm i) := rfl
  have hrs : (mkTransaction rng now n i).risk_score =
      round3 (if (mkTransaction rng now n i).is_fraud = true
        then rng.unifHi i else rng.unifLo i) := rfl
  obtain ⟨hHi1, hHi2⟩ := hv.unifHi_mem i
  obtain ⟨hLo1, hLo2⟩ := hv.unifLo_mem i
  have hA : 0 ≤ (mkTransaction rng now n i).amount := by
    rw [hamt]; exact round2_nonneg (hv.lognorm_pos i).le
  cases hb : (mkTransaction rng now n i).is_fraud with
  | true =>
    rw [hb, if_pos rfl] at hrs
    have hlb : 7/10 ≤ (mkTransaction rng now n i).risk_score := by
      rw [hrs]
      have h700 := le_round3 700 (show ((700 : ℤ) : ℚ) ≤ rng.unifHi i * 1000 by push_cast; linarith)
      have : ((700 : ℤ) : ℚ) / 1000 = 7/10 := by norm_num
      linarith [this ▸ h700]
    have hub : (mkTransaction rng now n i).risk_score ≤ 1 := by
      rw [hrs]
      have h1000 := round3_le 1000 (show rng.unifHi i * 1000 ≤ ((1000 : ℤ) : ℚ) by push_cast; linarith)
      have : ((1000 : ℤ) : ℚ) / 1000 = 1 := by norm_num
      linarith [this ▸ h1000]
    exact ⟨hA, by linarith, hub, fun ⟨_, h2⟩ => by linarith, fun _ => hlb,
      fun hf => absurd hf (by simp)⟩
  | false =>
    rw [hb, if_neg (by simp)] at hrs
    have hlb : 0 ≤ (mkTransaction rng now n i).risk_score := by
      rw [hrs]
      have h0 := le_round3 0 (show ((0 : ℤ) : ℚ) ≤ rng.unifLo i * 1000 by push_cast; linarith)
      have : ((0 : ℤ) : ℚ) / 1000 = 0 := by norm_num
      linarith [this ▸ h0]
    have hub : (mkTransaction rng now n i).risk_score ≤ 6/10 := by
      rw [hrs]
      have h600 := round3_le 600 (show rng.unifLo i * 1000 ≤ ((600 : ℤ) : ℚ) by push_cast; linarith)
      have : ((600 : ℤ) : ℚ) / 1000 = 6/10 := by norm_num
      linarith [this ▸ h600]
    exact ⟨hA, hlb, by linarith, fun ⟨h1, _⟩ => by linarith,
      fun ht => absurd ht (by simp), fun _ => hub⟩

/-- Witness for C3 at the concrete valid draw record `rng0`, `now = 0`,
`n = 2`. -/
theorem C3_range_invariants_witness :
    rng0.Valid ∧
    ∀ r ∈ generate_fraud_dataAux rng0 0 2,
      0 ≤ r.amount ∧ 0 ≤ r.risk_score ∧ r.risk_score ≤ 1 ∧
      ¬(6/10 < r.risk_score ∧ r.risk_score < 7/10) ∧
      (r.is_fraud = true → 7/10 ≤ r.risk_score) ∧
      (r.is_fraud = false → r.risk_score ≤ 6/10) :=
  ⟨rng0_valid, C3_range_invariants rng0 rng0_valid 0 2⟩

/-- Claim C10: the `N` timestamps are the inclusive linspace from
`now − 30` days to `now`: entry `i` is `now − 30 + i·(30/(N−1))`, the first
entry is `now − 30`, the last is `now`, and the sequence is strictly
increasing (hence pairwise distinct). -/
theorem C10_timestamp_spacing (rng : RNG) (now : ℚ) (n : ℕ) (hn : 2 ≤ n) :
    (generate_fraud_dataAux rng now n).map Transaction.date =
      date_range (now - 30) now n ∧
    (∀ i, i < n → (date_range (now - 30) now n)[i]? =
      some (now - 30 + i * (30 / ((n : ℚ) - 1)))) ∧
    (date_range (now - 30) now n)[0]? = some (now - 30) ∧
    (date_range (now - 30) now n)[n - 1]? = some now ∧
    (date_range (now - 30) now n).Pairwise (· < ·) := by
  have hstep : (0 : ℚ) < 30 / ((n : ℚ) - 1) := by
    apply div_pos (by norm_num)
    have : (2 : ℚ) ≤ (n : ℚ) := by exact_mod_cast hn
    linarith
  have helem : ∀ i, i < n → (date_range (now - 30) now n)[i]? =
      some (now - 30 + i * (30 / ((n : ℚ) - 1))) := by
    intro i hi
    have h1 : (date_range (now - 30) now n)[i]? =
        some (now - 30 + (i : ℚ) * ((now - (now - 30)) / ((n : ℚ) - 1))) := by
      rw [date_range, List.getElem?_map, List.getElem?_range hi]
      rfl
    rw [h1]
    congr 2
    ring
  refine ⟨?_, helem, ?_, ?_, ?_⟩
  · simp only [generate_fraud_dataAux, List.map_map, date_range]
    exact List.map_congr_left (fun a _ => rfl)
  · have h0 := helem 0 (by omega)
    simpa using h0
  · have hlast := helem (n - 1) (by omega)
    rw [hlast]
    have hne : (n : ℚ) - 1 ≠ 0 := by
      have : (2 : ℚ) ≤ (n : ℚ) := by exact_mod_cast hn
      linarith
    have hcast : ((n - 1 : ℕ) : ℚ) = (n : ℚ) - 1 := by
      have : 1 ≤ n := by omega
      push_cast [this]
      ring
    rw [hcast]
    congr 1
    field_simp
  · rw [List.pairwise_iff_getElem]
    intro i j hi hj hij
    simp only [date_range, List.length_map, List.length_range] at hi hj
    simp only [date_range, List.getElem_map, List.getElem_range]
    have : (i : ℚ) < (j : ℚ) := by exact_mod_cast hij
    have harith : (i : ℚ) * ((now - (now - 30)) / ((n : ℚ) - 1)) <
        (j : ℚ) * ((now - (now - 30)) / ((n : ℚ) - 1)) := by
      apply mul_lt_mul_of_pos_right this
      have : now - (now - 30) = 30 := by ring
      rw [this]
      exact hstep
    linarith

/-- Witness for C10 at `rng0`, `now = 0`, `n = 2`. -/
theorem C10_timestamp_spacing_witness :
    (generate_fraud_dataAux rng0 0 2).map Transaction.date =
      date_range (0 - 30) 0 2 ∧
    (∀ i : ℕ, i < 2 → (date_range (0 - 30) 0 2)[i]? =
      some (0 - 30 + (i : ℚ) * (30 / (((2 : ℕ) : ℚ) - 1)))) ∧
    (date_range (0 - 30) 0 2)[0]? = some (0 - 30) ∧
    (date_range (0 - 30) 0 2)[2 - 1]? = some 0 ∧
    (date_range (0 - 30) 0 2).Pairwise (· < ·) :=
  C10_timestamp_spacing rng0 0 2 (by norm_num)

/-- Claim C6: on a non-empty ledger the six scalar metrics are sum of amounts,
ledger size, number of fraud rows, sum of fraud amounts, fraud percentage
`fraud / total * 100`, and mean amount `total_amount / total`. -/
theorem C6_scalar_metrics (l : List Transaction) (h : 0 < l.length) :
    total_amount l = (l.map Transaction.amount).sum ∧
    total_transactions l = l.length ∧
    fraud_transactions l = (l.filter (fun r => r.is_fraud)).length ∧
    fraud_amount l =
      ((l.filter (fun r => r.is_fraud)).map Transaction.amount).sum ∧
    fraud_rate l =
      some ((fraud_transactions l : ℚ) / (total_transactions l : ℚ) * 100) ∧
    amount_mean l = some (total_amount l / (total_transactions l : ℚ)) := by
  have hne : total_transactions l ≠ 0 := by
    simp only [total_transactions]
    omega
  refine ⟨rfl, rfl, ?_, rfl, ?_, ?_⟩
  · simp [fraud_transactions, List.countP_eq_length_filter]
  · simp [fraud_rate, hne]
  · have hne2 : l.length ≠ 0 := by omega
    simp [amount_mean, hne2, total_amount, total_transactions]

/-- Witness for C6 at the one-row ledger generated from `rng0`. -/
theorem C6_scalar_metrics_witness :
    total_amount (generate_fraud_dataAux rng0 0 1) =
      ((generate_fraud_dataAux rng0 0 1).map Transaction.amount).sum ∧
    total_transactions (generate_fraud_dataAux rng0 0 1) =
      (generate_fraud_dataAux rng0 0 1).length ∧
    fraud_transactions (generate_fraud_dataAux rng0 0 1) =
      ((generate_fraud_dataAux rng0 0 1).filter (fun r => r.is_fraud)).length ∧
    fraud_amount (generate_fraud_dataAux rng0 0 1) =
      (((generate_fraud_dataAux rng0 0 1).filter
        (fun r => r.is_fraud)).map Transaction.amount).sum ∧
    fraud_rate (generate_fraud_dataAux rng0 0 1) =
      some ((fraud_transactions (generate_fraud_dataAux rng0 0 1) : ℚ) /
        (total_transactions (generate_fraud_dataAux rng0 0 1) : ℚ) * 100) ∧
    amount_mean (generate_fraud_dataAux rng0 0 1) =
      some (total_amount (generate_fraud_dataAux rng0 0 1) /
        (total_transactions (generate_fraud_dataAux rng0 0 1) : ℚ)) :=
  C6_scalar_metrics (generate_fraud_dataAux rng0 0 1) (by simp)

theorem sum_map_add_distrib (ks : List ℤ) (f g : ℤ → ℕ) :
    (ks.map (fun d => f d + g d)).sum = (ks.map f).sum + (ks.map g).sum := by
  induction ks with
  | nil => simp
  | cons k ks ih =>
    simp only [List.map_cons, List.sum_cons, ih]
    omega

theorem sum_indicator_not_mem {a : ℤ} {ks : List ℤ} (ha : a ∉ ks) :
    (ks.map (fun d => if a = d then 1 else 0)).sum = 0 := by
  induction ks with
  | nil => simp
  | cons k ks ih =>
    simp only [List.mem_cons, not_or] at ha
    simp [ha.1, ih ha.2]

theorem sum_indicator_nodup {a : ℤ} {ks : List ℤ} (hnd : ks.Nodup) (ha : a ∈ ks) :
    (ks.map (fun d => if a = d then 1 else 0)).sum = 1 := by
  induction ks with
  | nil => cases ha
  | cons k ks ih =>
    obtain ⟨hk, hnd'⟩ := List.nodup_cons.mp hnd
    rcases List.mem_cons.mp ha with h | h
    · subst h
      simp [sum_indicator_not_mem hk]
    · have hne : a ≠ k := fun he => hk (he ▸ h)
      simp [hne, ih hnd' h]

theorem length_eq_sum_counts (l : List Transaction) (ks : List ℤ)
    (hnd : ks.Nodup) (hcov : ∀ r ∈ l, calDate r ∈ ks) :
    (ks.map (fun d => l.countP (fun r => calDate r = d))).sum = l.length := by
  induction l with
  | nil => simp
  | cons r t ih =>
    have hcov' : ∀ x ∈ t, calDate x ∈ ks :=
      fun x hx => hcov x (List.mem_cons_of_mem _ hx)
    have hr : calDate r ∈ ks := hcov r (List.mem_cons_self _ _)
    have hsplit : ∀ d : ℤ, (r :: t).countP (fun x => calDate x = d) =
        t.countP (fun x => calDate x = d) + (if calDate r = d then 1 else 0) := by
      intro d
      simp [List.countP_cons]
    calc (ks.map (fun d => (r :: t).countP (fun x => calDate x = d))).sum
        = (ks.map (fun d => t.countP (fun x => calDate x = d) +
            (if calDate r = d then 1 else 0))).sum := by
          exact congrArg List.sum (List.map_congr_left (fun d _ => hsplit d))
      _ = (ks.map (fun d => t.countP (fun x => calDate x = d))).sum +
            (ks.map (fun d => if calDate r = d then 1 else 0)).sum :=
          sum_map_add_distrib ks _ _
      _ = t.length + 1 := by rw [ih hcov', sum_indicator_nodup hnd hr]
      _ = (r :: t).length := by simp

theorem daily_keys_nodup (l : List Transaction) : (daily_keys l).Nodup :=
  (List.Perm.nodup_iff (List.mergeSort_perm _ _)).mpr (List.nodup_dedup _)

theorem mem_daily_keys (l : List Transaction) (d : ℤ) :
    d ∈ daily_keys l ↔ ∃ r ∈ l, calDate r = d := by
  simp [daily_keys, List.mem_dedup]

theorem decide_intLE_trans (a b c : ℤ) :
    decide (a ≤ b) = true → decide (b ≤ c) = true → decide (a ≤ c) = true := by
  simp only [decide_eq_true_eq]
  exact le_trans

theorem decide_intLE_total (a b : ℤ) :
    (decide (a ≤ b) || decide (b ≤ a)) = true := by
  simp only [Bool.or_eq_true, decide_eq_true_eq]
  exact le_total a b

theorem daily_keys_sorted (l : List Transaction) :
    (daily_keys l).Pairwise (· < ·) := by
  have hs := List.sorted_mergeSort decide_intLE_trans decide_intLE_total
    ((l.map calDate).dedup)
  have hnd := daily_keys_nodup l
  refine ((hs.and hnd).imp ?_)
  intro a b hab
  obtain ⟨h1, h2⟩ := hab
  simp only [decide_eq_true_eq] at h1
  exact lt_of_le_of_ne h1 h2

/-- Claim C7: the daily series groups rows by the calendar-date component of
the timestamp; each row carries the group's transaction count, fraud count and
`round2(fraud/count*100)`; its dates are strictly ascending and are exactly the
dates occurring in the ledger; the per-day counts sum to the total transaction
count. -/
theorem C7_daily_series (l : List Transaction) :
    (∀ row ∈ daily_fraud l,
       row.tx_count = (l.filter (fun r => calDate r = row.date)).length ∧
       row.fraud_count =
         ((l.filter (fun r => calDate r = row.date)).filter
           (fun r => r.is_fraud)).length ∧
       row.fraud_rate =
         round2 ((row.fraud_count : ℚ) / (row.tx_count : ℚ) * 100)) ∧
    ((daily_fraud l).map DailyRow.date).Pairwise (· < ·) ∧
    (∀ d : ℤ, (∃ row ∈ daily_fraud l, row.date = d) ↔ ∃ r ∈ l, calDate r = d) ∧
    ((daily_fraud l).map DailyRow.tx_count).sum = total_transactions l := by
  refine ⟨?_, ?_, ?_, ?_⟩
  · intro row hrow
    simp only [daily_fraud, List.mem_map] at hrow
    obtain ⟨d, hd, rfl⟩ := hrow
    refine ⟨rfl, ?_, ?_⟩
    · simp [List.countP_eq_length_filter]
    · simp [List.countP_eq_length_filter]
  · have hmap : (daily_fraud l).map DailyRow.date = daily_keys l := by
      simp only [daily_fraud, List.map_map]
      exact List.map_id'' (fun d => rfl) (daily_keys l)
    rw [hmap]
    exact daily_keys_sorted l
  · intro d
    constructor
    · rintro ⟨row, hrow, rfl⟩
      simp only [daily_fraud, List.mem_map] at hrow
      obtain ⟨d', hd', rfl⟩ := hrow
      exact (mem_daily_keys l d').mp hd'
    · intro hex
      have hd : d ∈ daily_keys l := (mem_daily_keys l d).mpr hex
      exact ⟨_, List.mem_map_of_mem _ hd, rfl⟩
  · have hnd := daily_keys_nodup l
    have hcov : ∀ r ∈ l, calDate r ∈ daily_keys l :=
      fun r hr => (mem_daily_keys l _).mpr ⟨r, hr, rfl⟩
    have hsum := length_eq_sum_counts l (daily_keys l) hnd hcov
    calc ((daily_fraud l).map DailyRow.tx_count).sum
        = ((daily_keys l).map
            (fun d => l.countP (fun r => calDate r = d))).sum := by
          simp only [daily_fraud, List.map_map]
          refine congrArg List.sum (List.map_congr_left ?_)
          intro d _
          simp [List.countP_eq_length_filter]
      _ = l.length := hsum
      _ = total_transactions l := rfl

theorem riskLE_trans (a b c : ℕ × Transaction) :
    riskLE a b → riskLE b c → riskLE a c := by
  simp only [riskLE, decide_eq_true_eq]
  intro hab hbc
  rcases hab with h1 | ⟨h1, h2⟩ <;> rcases hbc with h3 | ⟨h3, h4⟩
  · left; linarith
  · left; linarith [h3.ge]
  · left; linarith [h1.le]
  · right; exact ⟨h1.trans h3, h2.trans h4⟩

theorem riskLE_total (a b : ℕ × Transaction) : riskLE a b || riskLE b a := by
  simp only [riskLE, Bool.or_eq_true, decide_eq_true_eq]
  rcases lt_trichotomy a.2.risk_score b.2.risk_score with h | h | h
  · right; left; exact h
  · rcases le_total a.1 b.1 with h2 | h2
    · left; right; exact ⟨h, h2⟩
    · right; right; exact ⟨h.symm, h2⟩
  · left; left; exact h

/-- Claim C8: the high-risk table holds exactly `min 10 N` rows, sorted by
descending `risk_score`, ties resolved by original ledger position (the pair's
first component is the row's position in the ledger); every retained score is
at least every excluded score; and the rendered rows are the projections to
the declared column set `{date, transaction_id, amount, merchant, risk_score,
is_fraud}`. -/
theorem C8_top10_ranking (l : List Transaction) :
    (nlargest10 l).length = min 10 l.length ∧
    ((nlargest10 l).map Transaction.risk_score).Pairwise (· ≥ ·) ∧
    (∀ p ∈ nlargest10Enum l, l[p.1]? = some p.2) ∧
    (nlargest10Enum l).Pairwise
      (fun p q => p.2.risk_score = q.2.risk_score → p.1 < q.1) ∧
    (∀ x ∈ nlargest10 l, ∀ y ∈ l, y ∉ nlargest10 l →
      y.risk_score ≤ x.risk_score) ∧
    recent_high_risk_table l = (nlargest10 l).map toHighRiskRow ∧
    recent_table_columns =
      ["date", "transaction_id", "amount", "merchant", "risk_score", "is_fraud"] := by
  have hperm : List.Perm (l.enum.mergeSort riskLE) l.enum := List.mergeSort_perm _ _
  have hsorted : (l.enum.mergeSort riskLE).Pairwise (fun a b => riskLE a b) :=
    List.sorted_mergeSort riskLE_trans riskLE_total l.enum
  have htake : List.Sublist (nlargest10Enum l) (l.enum.mergeSort riskLE) :=
    List.take_sublist _ _
  refine ⟨?_, ?_, ?_, ?_, ?_, rfl, rfl⟩
  · simp [nlargest10, nlargest10Enum]
  · have h1 : (nlargest10Enum l).Pairwise (fun a b => riskLE a b) :=
      hsorted.sublist htake
    simp only [nlargest10, List.map_map]
    rw [List.pairwise_map]
    refine h1.imp ?_
    intro a b hab
    simp only [riskLE, decide_eq_true_eq] at hab
    rcases hab with h | ⟨h, _⟩
    · exact h.le
    · exact h.ge
  · intro p hp
    have hmem : p ∈ l.enum :=
      hperm.mem_iff.mp (List.mem_of_mem_take hp)
    exact List.mem_enum_iff_getElem?.mp hmem
  · have hfst : (l.enum.mergeSort riskLE).Pairwise (fun p q => p.1 ≠ q.1) := by
      have h1 : ((l.enum.mergeSort riskLE).map Prod.fst).Nodup := by
        rw [List.Perm.nodup_iff (hperm.map Prod.fst)]
        rw [show l.enum.map Prod.fst = List.range' 0 l.length from
          List.enumFrom_map_fst 0 l]
        exact List.nodup_range' 0 l.length
      exact List.pairwise_map.mp h1
    refine ((hsorted.and hfst).sublist htake).imp ?_
    intro p q hpq heq
    obtain ⟨hle, hne⟩ := hpq
    simp only [riskLE, decide_eq_true_eq] at hle
    rcases hle with h | ⟨_, h2⟩
    · rw [heq] at h; exact absurd h (lt_irrefl _)
    · exact lt_of_le_of_ne h2 hne
  · intro x hx y hy hynot
    obtain ⟨j, hjl, hjy⟩ := List.mem_iff_getElem.mp hy
    have hjmem : (j, y) ∈ l.enum := by
      apply List.mk_mem_enum_iff_getElem?.mpr
      rw [List.getElem?_eq_getElem hjl, hjy]
    have hjsort : (j, y) ∈ l.enum.mergeSort riskLE := hperm.mem_iff.mpr hjmem
    have hsplit : (l.enum.mergeSort riskLE).take 10 ++
        (l.enum.mergeSort riskLE).drop 10 = l.enum.mergeSort riskLE :=
      List.take_append_drop 10 _
    have hsorted2 : ((l.enum.mergeSort riskLE).take 10 ++
        (l.enum.mergeSort riskLE).drop 10).Pairwise (fun a b => riskLE a b) := by
      rw [hsplit]; exact hsorted
    rw [← hsplit] at hjsort
    rcases List.mem_append.mp hjsort with hin | hin
    · exact absurd (List.mem_map_of_mem Prod.snd hin) hynot
    · obtain ⟨p, hp, hpx⟩ := List.mem_map.mp hx
      have hle : riskLE p (j, y) :=
        ((List.pairwise_append.mp hsorted2).2.2 p hp (j, y) hin)
      simp only [riskLE, decide_eq_true_eq] at hle
      rcases hle with h | ⟨h, _⟩
      · exact hpx ▸ h.le
      · exact hpx ▸ h.ge
